import Mathlib

/-
Formal model of the stablecoin bridge program
(src/solana/programs/programs/stablecoin_bridge/src/lib.rs, state.rs,
errors.rs): a shallow embedding of the account state, the instruction
handlers, and the transaction-level step relation of one liquidity pool,
together with theorems about the specified accounting, lifecycle and
authorization properties.

Modelling conventions:
- u64 values are embedded as Nat together with explicit bound checks
  against u64Max; the checked_add / checked_sub / checked_mul /
  checked_div / saturating_add methods of Rust u64 are modelled by the
  functions below.
- Pubkeys are opaque identities, embedded as Nat; the 32-byte recipient
  address is opaque to the program (never interpreted) and is likewise
  embedded as a single Nat.
- Each instruction is a pure function from the accounts it reads to an
  Except result.  A Solana transaction either commits all of an
  instruction handler writes or none of them, so an .error result means
  the on-chain state is unchanged; the World-level step function below
  makes that explicit.
- Anchor validates the accounts structs (their constraint and init
  attributes) before the handler body runs; the model performs those
  checks first, in account order, and then the body require checks in
  body order, so the observable error of each call matches the program.
- The external SPL token program (transfer, mint_to, burn) is modelled
  as an external ledger that always accepts the requested movement; a
  rejected movement would abort the call with no state change, which no
  claim here depends on.  The LP mint supply is an external observation
  passed to deposit and withdraw as an argument, matching the program
  reading lp_token_mint.supply from the passed account.
- lib.rs line 87 computes the deposit fee as (amount * fee_bps) / 10_000
  with UNCHECKED u64 arithmetic, unlike every other arithmetic step.
  The build profile that fixes the behaviour of an overflowing unchecked
  multiply is not part of the sources here; the spec (section 7) says
  arithmetic errors are fatal and never silently saturated, so the
  overflow of this product is modelled from the spec as a fatal abort of
  the call (.arithmeticPanic), distinct from the program error
  MathOverflow produced by the checked operations.
-/

namespace StablecoinBridge

/-- Largest value of a Rust u64. -/
def u64Max : Nat := 2 ^ 64 - 1

namespace u64

/-- Rust u64.saturating_add: clamps the sum at u64Max, never fails.
The checked_add, checked_sub, checked_mul and checked_div calls of the
program appear in the handler definitions below as explicit bound tests
(u64Max < a + b, b < a, u64Max < a * b, divisor = 0) whose failure arm
is the error the program maps the None onto; each such test carries a
comment naming the source operation. -/
def saturatingAdd (a b : Nat) : Nat :=
  min (a + b) u64Max

end u64

/-- BridgeError enum of errors.rs. -/
inductive BridgeError where
  | poolPaused
  | insufficientLiquidity
  | lockAmountExceedsLimit
  | lockCooldownActive
  | alreadyReleased
  | invalidBridgeLock
  | unauthorizedAdmin
  | unauthorizedRelayer
  | invalidFeeRate
  | mathOverflow
  | invalidPoolState
  | zeroLpAmount
  | zeroStablecoinAmount
deriving DecidableEq, Repr

/-- Outcome classification of a failed instruction: a program-defined
BridgeError, a fatal abort of unchecked arithmetic (see the header note
on lib.rs line 87), or a system-program failure initializing an account
that already exists or looking up one that does not. -/
inductive ProgError where
  | bridge (e : BridgeError)
  | arithmeticPanic
  | accountInUse
  | accountNotFound
deriving DecidableEq, Repr

instance {ε α : Type} [DecidableEq ε] [DecidableEq α] : DecidableEq (Except ε α) :=
  fun a b =>
    match a, b with
    | .ok x, .ok y => if h : x = y then .isTrue (by rw [h]) else .isFalse (by simp [h])
    | .error x, .error y => if h : x = y then .isTrue (by rw [h]) else .isFalse (by simp [h])
    | .ok _, .error _ => .isFalse (by simp)
    | .error _, .ok _ => .isFalse (by simp)

/-- Config account of state.rs (admin, relayer, global pause flag).  The
PDA bump is irrelevant to the claims and omitted. -/
structure Config where
  admin : Nat
  relayer : Nat
  paused : Bool
deriving DecidableEq, Repr

/-- Pool account of state.rs.  The stablecoin mint, vault and LP mint
addresses and the PDA bump only pin down which accounts are passed (the
Anchor constraints on account identity are assumed satisfied) and are
omitted; all fields the handlers read or write are kept. -/
structure PoolState where
  totalLiquidity : Nat
  availableLiquidity : Nat
  lockedLiquidity : Nat
  feeRateBps : Nat
  admin : Nat
  paused : Bool
  maxLockPerTx : Nat
  lockCooldownSeconds : Nat
  nextLockNonce : Nat
deriving DecidableEq, Repr

/-- BridgeLock account of state.rs. -/
structure BridgeLock where
  poolId : Nat
  amount : Nat
  nonce : Nat
  destinationChainId : Nat
  recipientAddress : Nat
  sender : Nat
  released : Bool
  lockedAt : Int
deriving DecidableEq, Repr

/-- initialize_config handler (lib.rs lines 34 to 41). -/
def initializeConfig (admin relayer : Nat) : Config :=
  { admin := admin, relayer := relayer, paused := false }

/-- initialize_pool handler (lib.rs lines 49 to 74): the InitializePool
accounts struct requires config.admin == admin (UnauthorizedAdmin) and
the body requires fee_rate_bps ≤ 10000 (InvalidFeeRate); all counters
start at zero. -/
def initializePool (cfg : Config) (caller feeRateBps maxLockPerTx
    lockCooldownSeconds : Nat) : Except ProgError PoolState :=
  if caller ≠ cfg.admin then .error (.bridge .unauthorizedAdmin)
  else if 10000 < feeRateBps then .error (.bridge .invalidFeeRate)
  else .ok
    { totalLiquidity := 0
      availableLiquidity := 0
      lockedLiquidity := 0
      feeRateBps := feeRateBps
      admin := caller
      paused := false
      maxLockPerTx := maxLockPerTx
      lockCooldownSeconds := lockCooldownSeconds
      nextLockNonce := 0 }

/-- LP token amount computed by deposit_liquidity (lib.rs lines 90 to
99): the net amount after fee for a bootstrap deposit on a pool with
available_liquidity == 0, and the floor proportional share of the
external LP supply otherwise. -/
def depositLpTokens (pool : PoolState) (lpSupply amount : Nat) : Nat :=
  if pool.availableLiquidity = 0 then
    amount - amount * pool.feeRateBps / 10000
  else
    lpSupply * (amount - amount * pool.feeRateBps / 10000) / pool.availableLiquidity

/-- Stablecoin payout computed by withdraw_liquidity (lib.rs lines 166
to 171): the floor proportional share of available liquidity. -/
def withdrawPayout (pool : PoolState) (lpSupply lpAmount : Nat) : Nat :=
  pool.availableLiquidity * lpAmount / lpSupply

/-- deposit_liquidity handler (lib.rs lines 78 to 152).  Check order:
the DepositLiquidity accounts struct rejects pool.paused and then
config.paused (both PoolPaused), the body re-checks both and then
amount > 0 (ZeroStablecoinAmount); the fee product amount * fee_bps is
unchecked u64 arithmetic (line 87, see the header note), the remaining
arithmetic is checked with MathOverflow.  Returns the updated pool and
the LP token amount minted to the depositor. -/
def depositLiquidity (cfg : Config) (pool : PoolState) (lpSupply amount : Nat) :
    Except ProgError (PoolState × Nat) :=
  if pool.paused then .error (.bridge .poolPaused)
  else if cfg.paused then .error (.bridge .poolPaused)
  else if amount = 0 then .error (.bridge .zeroStablecoinAmount)
  -- line 87: fee = (amount * fee_bps) / 10_000, unchecked multiply
  else if u64Max < amount * pool.feeRateBps then .error .arithmeticPanic
  -- line 88: amount.checked_sub(fee).ok_or(MathOverflow)
  else if amount < amount * pool.feeRateBps / 10000 then .error (.bridge .mathOverflow)
  -- lines 94 to 98, on the net amount after fee: total_lp_supply
  -- .checked_mul(net).ok_or(MathOverflow) then .checked_div(available_liquidity)
  -- .ok_or(MathOverflow); the divide runs in the branch where the divisor is
  -- nonzero.  Lines 91 and 92: a pool with available_liquidity == 0 mints the
  -- net amount one to one instead.
  else if ¬ pool.availableLiquidity = 0 ∧
      u64Max < lpSupply * (amount - amount * pool.feeRateBps / 10000) then
    .error (.bridge .mathOverflow)
  else if depositLpTokens pool lpSupply amount = 0 then .error (.bridge .zeroLpAmount)
  -- lines 134 to 141: checked_add on total_liquidity then available_liquidity
  else if u64Max < pool.totalLiquidity + amount then .error (.bridge .mathOverflow)
  else if u64Max < pool.availableLiquidity + amount then .error (.bridge .mathOverflow)
  else
    .ok ({ pool with totalLiquidity := pool.totalLiquidity + amount,
                     availableLiquidity := pool.availableLiquidity + amount },
         depositLpTokens pool lpSupply amount)

/-- withdraw_liquidity handler (lib.rs lines 155 to 230).  Checks both
pause flags (PoolPaused), lp_amount > 0 (ZeroLpAmount), the external LP
supply > 0 (MathOverflow), computes the payout with checked mul and div,
rejects a zero payout (ZeroStablecoinAmount) and a payout above
available_liquidity (InsufficientLiquidity), burns lp_amount and pays
out; total and available each drop by the payout under checked_sub.
Returns the updated pool and the stablecoin payout. -/
def withdrawLiquidity (cfg : Config) (pool : PoolState) (lpSupply lpAmount : Nat) :
    Except ProgError (PoolState × Nat) :=
  if pool.paused then .error (.bridge .poolPaused)
  else if cfg.paused then .error (.bridge .poolPaused)
  else if lpAmount = 0 then .error (.bridge .zeroLpAmount)
  -- line 164: require!(total_lp_supply > 0, MathOverflow)
  else if lpSupply = 0 then .error (.bridge .mathOverflow)
  -- lines 166 to 171: available_liquidity.checked_mul(lp_amount).ok_or(MathOverflow)
  -- then .checked_div(total_lp_supply).ok_or(MathOverflow); the divisor is nonzero
  else if u64Max < pool.availableLiquidity * lpAmount then .error (.bridge .mathOverflow)
  else if withdrawPayout pool lpSupply lpAmount = 0 then
    .error (.bridge .zeroStablecoinAmount)
  else if pool.availableLiquidity < withdrawPayout pool lpSupply lpAmount then
    .error (.bridge .insufficientLiquidity)
  -- lines 212 to 219: checked_sub on total_liquidity then available_liquidity
  else if pool.totalLiquidity < withdrawPayout pool lpSupply lpAmount then
    .error (.bridge .mathOverflow)
  else if pool.availableLiquidity < withdrawPayout pool lpSupply lpAmount then
    .error (.bridge .mathOverflow)
  else
    .ok ({ pool with
             totalLiquidity :=
               pool.totalLiquidity - withdrawPayout pool lpSupply lpAmount
             availableLiquidity :=
               pool.availableLiquidity - withdrawPayout pool lpSupply lpAmount },
         withdrawPayout pool lpSupply lpAmount)

/-- lock_for_bridge handler (lib.rs lines 236 to 303) together with its
accounts struct (lines 516 to 561).  Validation order: the pool account
constraint rejects pool.paused (PoolPaused), the init of the bridge_lock
PDA at seeds (pool, next_lock_nonce) fails if that account already
exists, then the body checks config.paused and pool.paused (PoolPaused),
amount > 0 (ZeroStablecoinAmount) and amount ≤ max_lock_per_tx
(LockAmountExceedsLimit).  The nonce is read from next_lock_nonce and
the counter advances with saturating_add; total and locked grow by the
amount under checked_add.  Returns the updated pool and the created
BridgeLock record. -/
def lockForBridge (cfg : Config) (pid : Nat) (pool : PoolState)
    (locks : List BridgeLock) (sender amount destinationChainId
    recipientAddress : Nat) (now : Int) :
    Except ProgError (PoolState × BridgeLock) :=
  if pool.paused then .error (.bridge .poolPaused)
  else if locks.any (fun lk =>
      lk.poolId = pid ∧ lk.nonce = pool.nextLockNonce) then
    .error .accountInUse
  else if cfg.paused then .error (.bridge .poolPaused)
  else if amount = 0 then .error (.bridge .zeroStablecoinAmount)
  else if pool.maxLockPerTx < amount then .error (.bridge .lockAmountExceedsLimit)
  -- lines 283 to 290: checked_add on total_liquidity then locked_liquidity
  else if u64Max < pool.totalLiquidity + amount then .error (.bridge .mathOverflow)
  else if u64Max < pool.lockedLiquidity + amount then .error (.bridge .mathOverflow)
  else
    .ok ({ pool with totalLiquidity := pool.totalLiquidity + amount,
                     lockedLiquidity := pool.lockedLiquidity + amount,
                     nextLockNonce := u64.saturatingAdd pool.nextLockNonce 1 },
         { poolId := pid
           amount := amount
           nonce := pool.nextLockNonce
           destinationChainId := destinationChainId
           recipientAddress := recipientAddress
           sender := sender
           released := false
           lockedAt := now })

/-- release_locked_liquidity handler (lib.rs lines 307 to 336) together
with its accounts struct (lines 564 to 585).  Validation order: the
config account constraint rejects a caller other than config.relayer
(UnauthorizedRelayer), the bridge_lock constraint and the body reject a
lock of another pool (InvalidBridgeLock), the body rejects an already
released lock (AlreadyReleased); then released is set and the amount
moves from locked to available under checked arithmetic.  No external
token transfer is performed.  Neither pause flag is consulted. -/
def releaseLockedLiquidity (cfg : Config) (pid : Nat) (pool : PoolState)
    (lk : BridgeLock) (caller : Nat) :
    Except ProgError (PoolState × BridgeLock) :=
  if caller ≠ cfg.relayer then .error (.bridge .unauthorizedRelayer)
  else if lk.poolId ≠ pid then .error (.bridge .invalidBridgeLock)
  else if lk.released then .error (.bridge .alreadyReleased)
  -- lines 318 to 325: checked_sub on locked_liquidity then checked_add
  -- on available_liquidity
  else if pool.lockedLiquidity < lk.amount then .error (.bridge .mathOverflow)
  else if u64Max < pool.availableLiquidity + lk.amount then .error (.bridge .mathOverflow)
  else
    .ok ({ pool with lockedLiquidity := pool.lockedLiquidity - lk.amount,
                     availableLiquidity := pool.availableLiquidity + lk.amount },
         { lk with released := true })

/-- update_fee_rate handler (lib.rs lines 339 to 343) with the admin
constraint of its accounts struct. -/
def updateFeeRate (pool : PoolState) (caller feeRateBps : Nat) :
    Except ProgError PoolState :=
  if caller ≠ pool.admin then .error (.bridge .unauthorizedAdmin)
  else if 10000 < feeRateBps then .error (.bridge .invalidFeeRate)
  else .ok { pool with feeRateBps := feeRateBps }

/-- pause_pool handler (lib.rs lines 346 to 349) with the admin
constraint of its accounts struct. -/
def pausePool (pool : PoolState) (caller : Nat) : Except ProgError PoolState :=
  if caller ≠ pool.admin then .error (.bridge .unauthorizedAdmin)
  else .ok { pool with paused := true }

/-- resume_pool handler (lib.rs lines 352 to 355) with the admin
constraint of its accounts struct. -/
def resumePool (pool : PoolState) (caller : Nat) : Except ProgError PoolState :=
  if caller ≠ pool.admin then .error (.bridge .unauthorizedAdmin)
  else .ok { pool with paused := false }

/-- On-chain state touched by one pool: the config singleton, the pool
account with its address, the bridge lock accounts created for it (in
creation order; a list index is the account address), and the balance of
the external vault token account.  Distinct pools live in disjoint
accounts and serialize independently, so the history of one pool is a
sequence of steps on this state. -/
structure World where
  config : Config
  poolId : Nat
  pool : PoolState
  locks : List BridgeLock
  vaultBalance : Nat
deriving DecidableEq, Repr

/-- One transaction against the pool.  The LP mint supply observed by a
deposit or withdraw is an input: the supply lives in the external token
ledger (holders can burn outside the protocol), the program reads it
from the passed mint account. -/
inductive Op where
  | deposit (depositor lpSupply amount : Nat)
  | withdraw (withdrawer lpSupply lpAmount : Nat)
  | lock (sender amount destinationChainId recipientAddress : Nat) (now : Int)
  | release (caller lockIdx : Nat)
  | updateFee (caller feeRateBps : Nat)
  | pause (caller : Nat)
  | resume (caller : Nat)
deriving DecidableEq, Repr

/-- Transaction semantics of one instruction against the world: the
handler result plus the external token movements it performed (vault
balance changes on deposit, withdraw and lock; release moves nothing). -/
def step (W : World) (o : Op) : Except ProgError World :=
  match o with
  | .deposit _ lpSupply amount =>
    (depositLiquidity W.config W.pool lpSupply amount).map fun r =>
      { W with pool := r.1, vaultBalance := W.vaultBalance + amount }
  | .withdraw _ lpSupply lpAmount =>
    (withdrawLiquidity W.config W.pool lpSupply lpAmount).map fun r =>
      { W with pool := r.1, vaultBalance := W.vaultBalance - r.2 }
  | .lock sender amount destinationChainId recipientAddress now =>
    (lockForBridge W.config W.poolId W.pool W.locks sender amount
        destinationChainId recipientAddress now).map fun r =>
      { W with pool := r.1, locks := W.locks ++ [r.2],
               vaultBalance := W.vaultBalance + amount }
  | .release caller lockIdx =>
    (W.locks.get? lockIdx).elim (.error .accountNotFound) fun lk =>
      (releaseLockedLiquidity W.config W.poolId W.pool lk caller).map fun r =>
        { W with pool := r.1, locks := W.locks.set lockIdx r.2 }
  | .updateFee caller feeRateBps =>
    (updateFeeRate W.pool caller feeRateBps).map fun p => { W with pool := p }
  | .pause caller =>
    (pausePool W.pool caller).map fun p => { W with pool := p }
  | .resume caller =>
    (resumePool W.pool caller).map fun p => { W with pool := p }

/-- Transaction atomicity: a failed instruction commits nothing, so the
world after an operation is the step result on success and the unchanged
world on failure. -/
def applyOp (W : World) (o : Op) : World :=
  match step W o with
  | .ok W2 => W2
  | .error _ => W

/-- Run a sequence of operations. -/
def run (W : World) (ops : List Op) : World :=
  ops.foldl applyOp W

/-- World immediately after initialize_config and initialize_pool: a
fresh config, a fresh pool (all counters zero, nonce zero, unpaused), no
lock records, and the initial balance of the pre-created vault token
account. -/
def initWorld (admin relayer pid feeRateBps maxLockPerTx
    lockCooldownSeconds vault0 : Nat) : World :=
  { config := initializeConfig admin relayer
    poolId := pid
    pool :=
      { totalLiquidity := 0
        availableLiquidity := 0
        lockedLiquidity := 0
        feeRateBps := feeRateBps
        admin := admin
        paused := false
        maxLockPerTx := maxLockPerTx
        lockCooldownSeconds := lockCooldownSeconds
        nextLockNonce := 0 }
    locks := []
    vaultBalance := vault0 }

end StablecoinBridge

namespace StablecoinBridge

/-- Invariant I1 of the spec: total liquidity equals the sum of the
available and locked partitions. -/
def Inv1 (p : PoolState) : Prop :=
  p.totalLiquidity = p.availableLiquidity + p.lockedLiquidity

/-- Sum of the amounts of the not-yet-released lock records: the
outstanding locked liability of the pool. -/
def sumUnreleased (l : List BridgeLock) : Nat :=
  (l.map fun lk => if lk.released then 0 else lk.amount).sum

/-- Structural well-formedness of a world: invariant I1 together with
the u64 bound on the total, locked liquidity equal to the outstanding
lock liability, and every stored lock belonging to this pool. -/
def GoodWorld (W : World) : Prop :=
  Inv1 W.pool ∧ W.pool.totalLiquidity ≤ u64Max ∧
  W.pool.lockedLiquidity = sumUnreleased W.locks ∧
  ∀ lk ∈ W.locks, lk.poolId = W.poolId

/-- Nonce bookkeeping invariant: the recorded nonces are exactly
0, 1, ..., N-1 in creation order, the counter stands at min(N, u64Max),
and every stored lock belongs to this pool. -/
def NonceInv (W : World) : Prop :=
  W.locks.map (fun lk => lk.nonce) = List.range W.locks.length ∧
  W.pool.nextLockNonce = min W.locks.length u64Max ∧
  ∀ lk ∈ W.locks, lk.poolId = W.poolId

/-- World reachable from config and pool initialization by a sequence
of transactions on this pool. -/
def Reachable (W : World) : Prop :=
  ∃ admin relayer pid feeRateBps maxLockPerTx lockCooldownSeconds vault0 ops,
    W = run (initWorld admin relayer pid feeRateBps maxLockPerTx
      lockCooldownSeconds vault0) ops

/-- Concrete unpaused config used by the counterexample and witness
theorems. -/
def cfg0 : Config := { admin := 0, relayer := 1, paused := false }

/-- Concrete fresh pool with the maximal legal fee rate of 10000 bps. -/
def poolA : PoolState :=
  { totalLiquidity := 0, availableLiquidity := 0, lockedLiquidity := 0,
    feeRateBps := 10000, admin := 0, paused := false, maxLockPerTx := 1000000,
    lockCooldownSeconds := 0, nextLockNonce := 0 }

/-- Concrete pool holding 2 ^ 32 available stablecoins and no fee. -/
def poolB : PoolState :=
  { totalLiquidity := 2 ^ 32, availableLiquidity := 2 ^ 32, lockedLiquidity := 0,
    feeRateBps := 0, admin := 0, paused := false, maxLockPerTx := 0,
    lockCooldownSeconds := 0, nextLockNonce := 0 }

/-- Concrete pool whose lock nonce counter stands at u64Max. -/
def poolC : PoolState :=
  { totalLiquidity := 5, availableLiquidity := 3, lockedLiquidity := 2,
    feeRateBps := 0, admin := 0, paused := false, maxLockPerTx := 10,
    lockCooldownSeconds := 0, nextLockNonce := u64Max }

/-- Concrete unreleased lock record of the pool with id 7. -/
def lkC : BridgeLock :=
  { poolId := 7, amount := 1, nonce := 0, destinationChainId := 5,
    recipientAddress := 11, sender := 9, released := false, lockedAt := 0 }

/-- Concrete world holding the pool with id 7 and one unreleased lock. -/
def worldC : World :=
  { config := cfg0, poolId := 7, pool := poolC, locks := [lkC], vaultBalance := 3 }

/-- Expected world after the relayer releases the lock of worldC. -/
def worldC' : World :=
  { config := cfg0
    poolId := 7
    pool := { poolC with lockedLiquidity := 1, availableLiquidity := 4 }
    locks := [{ lkC with released := true }]
    vaultBalance := 3 }

/-! ### Success characterizations of the handlers -/

/-- Successful deposit: requires both pause flags off and a nonzero
amount, mints the computed LP amount, and grows total and available
liquidity by the full pre-fee amount, in u64 bounds. -/
theorem depositLiquidity_ok {cfg : Config} {pool : PoolState} {lpSupply amount : Nat}
    {p' : PoolState} {m : Nat}
    (h : depositLiquidity cfg pool lpSupply amount = .ok (p', m)) :
    pool.paused = false ∧ cfg.paused = false ∧ amount ≠ 0 ∧
    m = depositLpTokens pool lpSupply amount ∧ m ≠ 0 ∧
    pool.totalLiquidity + amount ≤ u64Max ∧
    pool.availableLiquidity + amount ≤ u64Max ∧
    p' = { pool with totalLiquidity := pool.totalLiquidity + amount,
                     availableLiquidity := pool.availableLiquidity + amount } := by
  unfold depositLiquidity at h
  split_ifs at h
  all_goals cases h
  all_goals and_intros <;> first | rfl | omega | assumption | simp_all

/-- Successful withdraw: requires both pause flags off, nonzero share
amount and supply, pays out the floor proportional amount, and shrinks
total and available liquidity by the payout. -/
theorem withdrawLiquidity_ok {cfg : Config} {pool : PoolState} {lpSupply lpAmount : Nat}
    {p' : PoolState} {out : Nat}
    (h : withdrawLiquidity cfg pool lpSupply lpAmount = .ok (p', out)) :
    pool.paused = false ∧ cfg.paused = false ∧ lpAmount ≠ 0 ∧ lpSupply ≠ 0 ∧
    out = withdrawPayout pool lpSupply lpAmount ∧ out ≠ 0 ∧
    out ≤ pool.availableLiquidity ∧ out ≤ pool.totalLiquidity ∧
    p' = { pool with totalLiquidity := pool.totalLiquidity - out,
                     availableLiquidity := pool.availableLiquidity - out } := by
  unfold withdrawLiquidity at h
  split_ifs at h
  all_goals cases h
  all_goals and_intros <;> first | rfl | omega | assumption | simp_all

/-- Successful lock: requires both pause flags off, a nonzero amount in
the per-transaction cap, and a fresh nonce account; assigns the current
nonce, advances it saturating, and grows total and locked liquidity by
the amount, in u64 bounds. -/
theorem lockForBridge_ok {cfg : Config} {pid : Nat} {pool : PoolState}
    {locks : List BridgeLock} {sender amount destinationChainId recipientAddress : Nat}
    {now : Int} {p' : PoolState} {lk : BridgeLock}
    (h : lockForBridge cfg pid pool locks sender amount destinationChainId
          recipientAddress now = .ok (p', lk)) :
    pool.paused = false ∧ cfg.paused = false ∧ amount ≠ 0 ∧
    amount ≤ pool.maxLockPerTx ∧
    (∀ l ∈ locks, ¬ (l.poolId = pid ∧ l.nonce = pool.nextLockNonce)) ∧
    pool.totalLiquidity + amount ≤ u64Max ∧
    pool.lockedLiquidity + amount ≤ u64Max ∧
    p' = { pool with totalLiquidity := pool.totalLiquidity + amount,
                     lockedLiquidity := pool.lockedLiquidity + amount,
                     nextLockNonce := u64.saturatingAdd pool.nextLockNonce 1 } ∧
    lk = { poolId := pid, amount := amount, nonce := pool.nextLockNonce,
           destinationChainId := destinationChainId,
           recipientAddress := recipientAddress, sender := sender,
           released := false, lockedAt := now } := by
  unfold lockForBridge at h
  split_ifs at h
  all_goals cases h
  all_goals and_intros <;> first | rfl | omega | assumption | simp_all

/-- Successful release: requires the relayer as caller, a lock of this
pool that is not yet released; marks it released and moves its amount
from locked to available liquidity. -/
theorem releaseLockedLiquidity_ok {cfg : Config} {pid : Nat} {pool : PoolState}
    {lk : BridgeLock} {caller : Nat} {p' : PoolState} {lk' : BridgeLock}
    (h : releaseLockedLiquidity cfg pid pool lk caller = .ok (p', lk')) :
    caller = cfg.relayer ∧ lk.poolId = pid ∧ lk.released = false ∧
    lk.amount ≤ pool.lockedLiquidity ∧
    pool.availableLiquidity + lk.amount ≤ u64Max ∧
    p' = { pool with lockedLiquidity := pool.lockedLiquidity - lk.amount,
                     availableLiquidity := pool.availableLiquidity + lk.amount } ∧
    lk' = { lk with released := true } := by
  unfold releaseLockedLiquidity at h
  split_ifs at h
  all_goals cases h
  all_goals and_intros <;> first | rfl | omega | assumption | simp_all

/-- Successful fee update only rewrites the fee rate. -/
theorem updateFeeRate_ok {pool : PoolState} {caller feeRateBps : Nat} {p' : PoolState}
    (h : updateFeeRate pool caller feeRateBps = .ok p') :
    p' = { pool with feeRateBps := feeRateBps } := by
  unfold updateFeeRate at h
  split_ifs at h
  all_goals cases h
  rfl

/-- Successful pause only sets the pool pause flag. -/
theorem pausePool_ok {pool : PoolState} {caller : Nat} {p' : PoolState}
    (h : pausePool pool caller = .ok p') : p' = { pool with paused := true } := by
  unfold pausePool at h
  split_ifs at h
  all_goals cases h
  rfl

/-- Successful resume only clears the pool pause flag. -/
theorem resumePool_ok {pool : PoolState} {caller : Nat} {p' : PoolState}
    (h : resumePool pool caller = .ok p') : p' = { pool with paused := false } := by
  unfold resumePool at h
  split_ifs at h
  all_goals cases h
  rfl

/-! ### World-level shape of a successful step -/

/-- Successful deposit step: the handler succeeded on the pool and the
vault gained the deposited amount; config, pool id and locks unchanged. -/
theorem step_deposit_ok {W : World} {d s a : Nat} {W2 : World}
    (h : step W (.deposit d s a) = .ok W2) :
    ∃ m, depositLiquidity W.config W.pool s a = .ok (W2.pool, m) ∧
      W2.locks = W.locks ∧ W2.config = W.config ∧ W2.poolId = W.poolId ∧
      W2.vaultBalance = W.vaultBalance + a := by
  simp only [step] at h
  cases hD : depositLiquidity W.config W.pool s a with
  | error e => rw [hD] at h; simp only [Except.map] at h; cases h
  | ok r =>
    rw [hD] at h
    simp only [Except.map] at h
    cases h
    exact ⟨r.2, rfl, rfl, rfl, rfl, rfl⟩

/-- Successful withdraw step: the handler succeeded on the pool and the
vault lost the payout; config, pool id and locks unchanged. -/
theorem step_withdraw_ok {W : World} {d s a : Nat} {W2 : World}
    (h : step W (.withdraw d s a) = .ok W2) :
    ∃ out, withdrawLiquidity W.config W.pool s a = .ok (W2.pool, out) ∧
      W2.locks = W.locks ∧ W2.config = W.config ∧ W2.poolId = W.poolId ∧
      W2.vaultBalance = W.vaultBalance - out := by
  simp only [step] at h
  cases hD : withdrawLiquidity W.config W.pool s a with
  | error e => rw [hD] at h; simp only [Except.map] at h; cases h
  | ok r =>
    rw [hD] at h
    simp only [Except.map] at h
    cases h
    exact ⟨r.2, rfl, rfl, rfl, rfl, rfl⟩

/-- Successful lock step: the handler succeeded, the new lock record is
appended, and the vault gained the locked amount. -/
theorem step_lock_ok {W : World} {sender a dId rAddr : Nat} {now : Int} {W2 : World}
    (h : step W (.lock sender a dId rAddr now) = .ok W2) :
    ∃ lk, lockForBridge W.config W.poolId W.pool W.locks sender a dId rAddr now
        = .ok (W2.pool, lk) ∧
      W2.locks = W.locks ++ [lk] ∧ W2.config = W.config ∧ W2.poolId = W.poolId ∧
      W2.vaultBalance = W.vaultBalance + a := by
  simp only [step] at h
  cases hD : lockForBridge W.config W.poolId W.pool W.locks sender a dId rAddr now with
  | error e => rw [hD] at h; simp only [Except.map] at h; cases h
  | ok r =>
    rw [hD] at h
    simp only [Except.map] at h
    cases h
    exact ⟨r.2, rfl, rfl, rfl, rfl, rfl⟩

/-- Successful release step: the addressed lock exists, the handler
succeeded, the lock store is updated in place, and the vault balance is
untouched (release transfers no tokens). -/
theorem step_release_ok {W : World} {caller i : Nat} {W2 : World}
    (h : step W (.release caller i) = .ok W2) :
    ∃ lk lk', W.locks.get? i = some lk ∧
      releaseLockedLiquidity W.config W.poolId W.pool lk caller = .ok (W2.pool, lk') ∧
      W2.locks = W.locks.set i lk' ∧ W2.config = W.config ∧ W2.poolId = W.poolId ∧
      W2.vaultBalance = W.vaultBalance := by
  simp only [step] at h
  cases hL : W.locks.get? i with
  | none => rw [hL] at h; simp only [Option.elim] at h; cases h
  | some lk =>
    rw [hL] at h
    simp only [Option.elim] at h
    cases hD : releaseLockedLiquidity W.config W.poolId W.pool lk caller with
    | error e => rw [hD] at h; simp only [Except.map] at h; cases h
    | ok r =>
      rw [hD] at h
      simp only [Except.map] at h
      cases h
      exact ⟨lk, r.2, rfl, hD, rfl, rfl, rfl, rfl⟩

/-- Successful admin step (fee update, pause, resume): only the pool
record changes, and only in its fee rate or pause flag. -/
theorem step_admin_ok {W : World} {o : Op} {W2 : World}
    (hAdmin : (∃ c f, o = .updateFee c f) ∨ (∃ c, o = .pause c) ∨ (∃ c, o = .resume c))
    (h : step W o = .ok W2) :
    W2.locks = W.locks ∧ W2.config = W.config ∧ W2.poolId = W.poolId ∧
    W2.vaultBalance = W.vaultBalance ∧
    W2.pool.totalLiquidity = W.pool.totalLiquidity ∧
    W2.pool.availableLiquidity = W.pool.availableLiquidity ∧
    W2.pool.lockedLiquidity = W.pool.lockedLiquidity ∧
    W2.pool.nextLockNonce = W.pool.nextLockNonce := by
  rcases hAdmin with ⟨c, f, rfl⟩ | ⟨c, rfl⟩ | ⟨c, rfl⟩
  · simp only [step] at h
    cases hD : updateFeeRate W.pool c f with
    | error e => rw [hD] at h; simp only [Except.map] at h; cases h
    | ok p =>
      rw [hD] at h
      simp only [Except.map] at h
      cases h
      have := updateFeeRate_ok hD
      subst this
      exact ⟨rfl, rfl, rfl, rfl, rfl, rfl, rfl, rfl⟩
  · simp only [step] at h
    cases hD : pausePool W.pool c with
    | error e => rw [hD] at h; simp only [Except.map] at h; cases h
    | ok p =>
      rw [hD] at h
      simp only [Except.map] at h
      cases h
      have := pausePool_ok hD
      subst this
      exact ⟨rfl, rfl, rfl, rfl, rfl, rfl, rfl, rfl⟩
  · simp only [step] at h
    cases hD : resumePool W.pool c with
    | error e => rw [hD] at h; simp only [Except.map] at h; cases h
    | ok p =>
      rw [hD] at h
      simp only [Except.map] at h
      cases h
      have := resumePool_ok hD
      subst this
      exact ⟨rfl, rfl, rfl, rfl, rfl, rfl, rfl, rfl⟩

end StablecoinBridge

namespace StablecoinBridge

/-! ### Invariant I1 -/

/-- A list with no member matching the pool and nonce has a false any. -/
theorem locks_fresh_any_false {locks : List BridgeLock} {pid n : Nat}
    (hfresh : ∀ l ∈ locks, ¬ (l.poolId = pid ∧ l.nonce = n)) :
    (locks.any fun lk => lk.poolId = pid ∧ lk.nonce = n) = false := by
  simp only [List.any_eq_false, decide_eq_true_eq]
  intro l hl h1
  exact hfresh l hl h1

/-- Each transaction preserves invariant I1 (a failed transaction leaves
the world unchanged). -/
theorem applyOp_preserves_Inv1 (W : World) (o : Op) (h : Inv1 W.pool) :
    Inv1 (applyOp W o).pool := by
  unfold applyOp
  cases hS : step W o with
  | error e => exact h
  | ok W2 =>
    cases o with
    | deposit d s a =>
      obtain ⟨m, hD, -, -, -, -⟩ := step_deposit_ok hS
      have hc := depositLiquidity_ok hD
      simp only [Inv1] at h ⊢
      rw [hc.2.2.2.2.2.2.2]
      dsimp only
      omega
    | withdraw d s a =>
      obtain ⟨out, hD, -, -, -, -⟩ := step_withdraw_ok hS
      have hc := withdrawLiquidity_ok hD
      simp only [Inv1] at h ⊢
      rw [hc.2.2.2.2.2.2.2.2]
      dsimp only
      have := hc.2.2.2.2.2.2.1
      have := hc.2.2.2.2.2.2.2.1
      omega
    | lock sender a dId rAddr now =>
      obtain ⟨lk, hD, -, -, -, -⟩ := step_lock_ok hS
      have hc := lockForBridge_ok hD
      simp only [Inv1] at h ⊢
      rw [hc.2.2.2.2.2.2.2.1]
      dsimp only
      omega
    | release caller i =>
      obtain ⟨lk, lk', -, hR, -, -, -, -⟩ := step_release_ok hS
      have hc := releaseLockedLiquidity_ok hR
      simp only [Inv1] at h ⊢
      rw [hc.2.2.2.2.2.1]
      dsimp only
      have := hc.2.2.2.1
      omega
    | updateFee c f =>
      have hc := step_admin_ok (Or.inl ⟨c, f, rfl⟩) hS
      simp only [Inv1] at h ⊢
      rw [hc.2.2.2.2.1, hc.2.2.2.2.2.1, hc.2.2.2.2.2.2.1]
      exact h
    | pause c =>
      have hc := step_admin_ok (Or.inr (Or.inl ⟨c, rfl⟩)) hS
      simp only [Inv1] at h ⊢
      rw [hc.2.2.2.2.1, hc.2.2.2.2.2.1, hc.2.2.2.2.2.2.1]
      exact h
    | resume c =>
      have hc := step_admin_ok (Or.inr (Or.inr ⟨c, rfl⟩)) hS
      simp only [Inv1] at h ⊢
      rw [hc.2.2.2.2.1, hc.2.2.2.2.2.1, hc.2.2.2.2.2.2.1]
      exact h

/-- Invariant I1 is inductive along any run. -/
theorem run_preserves_Inv1 (W : World) (ops : List Op) (h : Inv1 W.pool) :
    Inv1 (run W ops).pool := by
  induction ops generalizing W with
  | nil => exact h
  | cons o t ih => exact ih _ (applyOp_preserves_Inv1 W o h)

/-- C1: for every pool and every sequence of successful operations
(initialize_pool, deposit_liquidity, withdraw_liquidity, lock_for_bridge,
release_locked_liquidity, and also the admin operations), at the end of
each successful operation the pool satisfies
total_liquidity == available_liquidity + locked_liquidity.  A freshly
initialized pool satisfies it, every transaction preserves it, and a
failed transaction changes nothing. -/
theorem liquidity_partition_invariant :
    (∀ admin relayer pid feeRateBps maxLockPerTx lockCooldownSeconds vault0,
      Inv1 (initWorld admin relayer pid feeRateBps maxLockPerTx
        lockCooldownSeconds vault0).pool) ∧
    (∀ (W : World) (ops : List Op), Inv1 W.pool → Inv1 (run W ops).pool) := by
  constructor
  · intro admin relayer pid feeRateBps maxLockPerTx lockCooldownSeconds vault0
    simp [initWorld, Inv1]
  · exact fun W ops h => run_preserves_Inv1 W ops h

/-- Witness for C1 on a concrete run: bootstrap deposit, lock, release,
withdraw. -/
theorem liquidity_partition_invariant_witness :
    Inv1 (run (initWorld 0 1 2 30 1000 0 7)
      [.deposit 5 0 400, .lock 5 100 9 77 0, .release 1 0,
       .withdraw 5 400 100]).pool :=
  liquidity_partition_invariant.2 _ _ (by simp [initWorld, Inv1])

/-! ### C9: frame effect of a successful lock -/

/-- C9: every successful lock_for_bridge grows total_liquidity and
locked_liquidity by exactly the locked amount and leaves
available_liquidity unchanged. -/
theorem lock_liquidity_frame {cfg : Config} {pid : Nat} {pool : PoolState}
    {locks : List BridgeLock} {sender amount dId rAddr : Nat} {now : Int}
    {p' : PoolState} {lk : BridgeLock}
    (h : lockForBridge cfg pid pool locks sender amount dId rAddr now = .ok (p', lk)) :
    p'.totalLiquidity = pool.totalLiquidity + amount ∧
    p'.lockedLiquidity = pool.lockedLiquidity + amount ∧
    p'.availableLiquidity = pool.availableLiquidity := by
  have hc := lockForBridge_ok h
  rw [hc.2.2.2.2.2.2.2.1]
  exact ⟨rfl, rfl, rfl⟩

/-- Witness for C9: a concrete successful lock of amount 1. -/
theorem lock_liquidity_frame_witness :
    ({ poolC with totalLiquidity := 6
                  lockedLiquidity := 3
                  nextLockNonce := u64.saturatingAdd u64Max 1 }).totalLiquidity
        = poolC.totalLiquidity + 1 ∧
    ({ poolC with totalLiquidity := 6
                  lockedLiquidity := 3
                  nextLockNonce := u64.saturatingAdd u64Max 1 }).lockedLiquidity
        = poolC.lockedLiquidity + 1 ∧
    ({ poolC with totalLiquidity := 6
                  lockedLiquidity := 3
                  nextLockNonce := u64.saturatingAdd u64Max 1 }).availableLiquidity
        = poolC.availableLiquidity :=
  @lock_liquidity_frame cfg0 7 poolC [] 9 1 5 11 0
    { poolC with totalLiquidity := 6
                 lockedLiquidity := 3
                 nextLockNonce := u64.saturatingAdd u64Max 1 }
    { poolId := 7, amount := 1, nonce := u64Max, destinationChainId := 5,
      recipientAddress := 11, sender := 9, released := false, lockedAt := 0 }
    (by decide)

/-! ### C10: per-transaction rate limit -/

/-- C10: a lock_for_bridge call above max_lock_per_tx on an unpaused
pool (whose current nonce account is fresh, as in every pre-saturation
reachable state) fails with LockAmountExceedsLimit and mutates no state:
the transaction result is the unchanged world. -/
theorem lock_rate_limit (W : World) (sender amount dId rAddr : Nat) (now : Int)
    (hpp : W.pool.paused = false) (hcp : W.config.paused = false)
    (hfresh : ∀ l ∈ W.locks, ¬ (l.poolId = W.poolId ∧ l.nonce = W.pool.nextLockNonce))
    (hlim : W.pool.maxLockPerTx < amount) :
    step W (.lock sender amount dId rAddr now)
      = .error (.bridge .lockAmountExceedsLimit) ∧
    applyOp W (.lock sender amount dId rAddr now) = W := by
  have ha : ¬ amount = 0 := by omega
  have hany := locks_fresh_any_false hfresh
  have hL : lockForBridge W.config W.poolId W.pool W.locks sender amount dId rAddr now
      = .error (.bridge .lockAmountExceedsLimit) := by
    unfold lockForBridge
    rw [hany]
    simp [hpp, hcp, ha, hlim]
  have hstep : step W (.lock sender amount dId rAddr now)
      = .error (.bridge .lockAmountExceedsLimit) := by
    simp only [step, hL, Except.map]
  refine ⟨hstep, ?_⟩
  unfold applyOp
  rw [hstep]

/-- Witness for C10: locking 11 > 10 on the concrete pool fails with the
rate limit error and leaves the world unchanged. -/
theorem lock_rate_limit_witness :
    step { config := cfg0, poolId := 7, pool := poolC, locks := [], vaultBalance := 3 }
        (.lock 9 11 5 12 0) = .error (.bridge .lockAmountExceedsLimit) ∧
    applyOp { config := cfg0, poolId := 7, pool := poolC, locks := [], vaultBalance := 3 }
        (.lock 9 11 5 12 0)
      = { config := cfg0, poolId := 7, pool := poolC, locks := [], vaultBalance := 3 } :=
  lock_rate_limit _ 9 11 5 12 0 rfl rfl (by simp) (by decide)

/-! ### C7: global pause gating -/

/-- C7: with the global pause flag set, deposit_liquidity,
withdraw_liquidity and lock_for_bridge all fail with PoolPaused (the
lock conjunct assumes the fresh-nonce account of every pre-saturation
reachable state, since Anchor account creation runs before the handler
body), while release_locked_liquidity ignores both pause flags: its
result does not depend on the global flag, and it succeeds whenever its
own preconditions hold, whatever the two pause flags are. -/
theorem global_pause_gating :
    (∀ (cfg : Config) (pool : PoolState) (lpSupply amount : Nat), cfg.paused = true →
      depositLiquidity cfg pool lpSupply amount = .error (.bridge .poolPaused)) ∧
    (∀ (cfg : Config) (pool : PoolState) (lpSupply lpAmount : Nat), cfg.paused = true →
      withdrawLiquidity cfg pool lpSupply lpAmount = .error (.bridge .poolPaused)) ∧
    (∀ (cfg : Config) (pid : Nat) (pool : PoolState) (locks : List BridgeLock)
      (sender amount dId rAddr : Nat) (now : Int), cfg.paused = true →
      (∀ l ∈ locks, ¬ (l.poolId = pid ∧ l.nonce = pool.nextLockNonce)) →
      lockForBridge cfg pid pool locks sender amount dId rAddr now
        = .error (.bridge .poolPaused)) ∧
    (∀ (ad rel : Nat) (b b' : Bool) (pid : Nat) (pool : PoolState)
      (lk : BridgeLock) (caller : Nat),
      releaseLockedLiquidity ⟨ad, rel, b⟩ pid pool lk caller
        = releaseLockedLiquidity ⟨ad, rel, b'⟩ pid pool lk caller) ∧
    (∀ (cfg : Config) (pid : Nat) (pool : PoolState) (lk : BridgeLock) (caller : Nat),
      caller = cfg.relayer → lk.poolId = pid → lk.released = false →
      lk.amount ≤ pool.lockedLiquidity →
      pool.availableLiquidity + lk.amount ≤ u64Max →
      releaseLockedLiquidity cfg pid pool lk caller
        = .ok ({ pool with lockedLiquidity := pool.lockedLiquidity - lk.amount,
                           availableLiquidity := pool.availableLiquidity + lk.amount },
               { lk with released := true })) := by
  refine ⟨?_, ?_, ?_, ?_, ?_⟩
  · intro cfg pool lpSupply amount hcp
    simp [depositLiquidity, hcp]
  · intro cfg pool lpSupply lpAmount hcp
    simp [withdrawLiquidity, hcp]
  · intro cfg pid pool locks sender amount dId rAddr now hcp hfresh
    have hany := locks_fresh_any_false hfresh
    unfold lockForBridge
    rw [hany]
    simp [hcp]
  · intro ad rel b b' pid pool lk caller
    rfl
  · intro cfg pid pool lk caller h1 h2 h3 h4 h5
    unfold releaseLockedLiquidity
    split_ifs <;> first | rfl | omega | simp_all

/-- Witness for C7: a globally paused deposit fails with PoolPaused, and
a concrete release on an unpaused lock succeeds regardless. -/
theorem global_pause_gating_witness :
    depositLiquidity { admin := 0, relayer := 1, paused := true } poolB 5 10
      = .error (.bridge .poolPaused) ∧
    releaseLockedLiquidity cfg0 7 poolC lkC 1
      = .ok ({ poolC with lockedLiquidity := 1, availableLiquidity := 4 },
             { lkC with released := true }) :=
  ⟨global_pause_gating.1 _ _ _ _ rfl,
   global_pause_gating.2.2.2.2 cfg0 7 poolC lkC 1 rfl rfl rfl
     (by decide) (by decide)⟩

end StablecoinBridge

namespace StablecoinBridge

/-! ### C3: deposit share mathematics -/

/-- C3 (amended): for a deposit with both pause flags false, a nonzero
amount, a fee rate in the legal 0 to 10000 bps range, a u64 available
balance, and a fee product amount * fee_rate_bps that fits in u64, the
LP amount follows depositLpTokens (net amount on a bootstrap deposit,
floor proportional share otherwise, with fee = floor(amount *
fee_rate_bps / 10000) and net = amount - fee); a zero share amount
fails with ZeroLpAmount, and a successful call mints exactly that share
amount and grows total and available liquidity by the full pre-fee
amount.  When the fee product overflows u64 the unchecked multiply on
lib.rs line 87 aborts the call instead (see the counterexample). -/
theorem deposit_share_formula (cfg : Config) (pool : PoolState) (lpSupply amount : Nat)
    (hpp : pool.paused = false) (hcp : cfg.paused = false) (ha : amount ≠ 0)
    (hbps : pool.feeRateBps ≤ 10000)
    (hav : pool.availableLiquidity ≤ u64Max)
    (hm : amount * pool.feeRateBps ≤ u64Max) :
    (depositLpTokens pool lpSupply amount = 0 →
      depositLiquidity cfg pool lpSupply amount = .error (.bridge .zeroLpAmount)) ∧
    (∀ p' m, depositLiquidity cfg pool lpSupply amount = .ok (p', m) →
      m = depositLpTokens pool lpSupply amount ∧
      p'.totalLiquidity = pool.totalLiquidity + amount ∧
      p'.availableLiquidity = pool.availableLiquidity + amount) := by
  have hfee : amount * pool.feeRateBps / 10000 ≤ amount := by
    have h1 : amount * pool.feeRateBps / 10000 ≤ amount * 10000 / 10000 :=
      Nat.div_le_div_right (Nat.mul_le_mul_left _ hbps)
    have h2 : amount * 10000 / 10000 = amount := by
      rw [Nat.mul_comm]
      exact Nat.mul_div_cancel_left _ (by norm_num)
    omega
  constructor
  · intro hz
    have hnoov : ¬ (¬ pool.availableLiquidity = 0 ∧
        u64Max < lpSupply * (amount - amount * pool.feeRateBps / 10000)) := by
      rintro ⟨hne, hgt⟩
      unfold depositLpTokens at hz
      rw [if_neg hne] at hz
      have hlt := (Nat.div_eq_zero_iff (Nat.pos_of_ne_zero hne)).mp hz
      omega
    simp [depositLiquidity, hpp, hcp, ha, Nat.not_lt.mpr hm, Nat.not_lt.mpr hfee,
      hnoov, hz]
  · intro p' m h
    have hc := depositLiquidity_ok h
    refine ⟨hc.2.2.2.1, ?_, ?_⟩
    · rw [hc.2.2.2.2.2.2.2]
    · rw [hc.2.2.2.2.2.2.2]

/-- Counterexample to C3 as stated: on a fresh pool at the maximal legal
fee rate of 10000 bps, a deposit of 2 ^ 63 (both pause flags false,
amount > 0) has computed share amount 0, so the claim requires a
ZeroLpAmount failure, but the unchecked fee product of lib.rs line 87
overflows u64 first and the call aborts without ZeroLpAmount. -/
theorem deposit_share_formula_cex :
    poolA.paused = false ∧ cfg0.paused = false ∧ (2 ^ 63 : Nat) ≠ 0 ∧
    depositLpTokens poolA 0 (2 ^ 63) = 0 ∧
    u64Max < 2 ^ 63 * poolA.feeRateBps ∧
    depositLiquidity cfg0 poolA 0 (2 ^ 63) = .error .arithmeticPanic ∧
    depositLiquidity cfg0 poolA 0 (2 ^ 63) ≠ .error (.bridge .zeroLpAmount) := by
  decide

/-- Witness for C3 on the bootstrap example of the spec: depositing 1000
into a fresh zero-fee pool mints exactly 1000 shares and sets
available_liquidity to 1000. -/
theorem deposit_share_formula_witness :
    ((depositLpTokens (initWorld 0 1 2 0 1000 0 0).pool 0 1000 = 0 →
      depositLiquidity cfg0 (initWorld 0 1 2 0 1000 0 0).pool 0 1000
        = .error (.bridge .zeroLpAmount)) ∧
    (∀ p' m, depositLiquidity cfg0 (initWorld 0 1 2 0 1000 0 0).pool 0 1000
        = .ok (p', m) →
      m = depositLpTokens (initWorld 0 1 2 0 1000 0 0).pool 0 1000 ∧
      p'.totalLiquidity = (initWorld 0 1 2 0 1000 0 0).pool.totalLiquidity + 1000 ∧
      p'.availableLiquidity
        = (initWorld 0 1 2 0 1000 0 0).pool.availableLiquidity + 1000)) ∧
    depositLiquidity cfg0 (initWorld 0 1 2 0 1000 0 0).pool 0 1000
      = .ok ({ (initWorld 0 1 2 0 1000 0 0).pool with
                 totalLiquidity := 1000
                 availableLiquidity := 1000 }, 1000) :=
  ⟨deposit_share_formula cfg0 _ 0 1000 rfl rfl (by norm_num) (by decide) (by decide)
     (by decide), by decide⟩

/-! ### C4: withdraw payout mathematics -/

/-- C4 (amended): for a withdraw with both pause flags false, nonzero
share amount and external supply, and a product available_liquidity *
lp_amount that fits in u64, the payout is the floor proportional share
withdrawPayout; a zero payout fails with ZeroStablecoinAmount, a payout
above available_liquidity fails with InsufficientLiquidity, and a
successful call burns lp_amount shares (the burn call is issued with
exactly lp_amount) paying the computed amount, decreasing total and
available liquidity by it.  When the product overflows u64 the checked
multiply fails with MathOverflow before the payout comparison (see the
counterexample). -/
theorem withdraw_payout_formula (cfg : Config) (pool : PoolState) (lpSupply lpAmount : Nat)
    (hpp : pool.paused = false) (hcp : cfg.paused = false)
    (hl : lpAmount ≠ 0) (hs : lpSupply ≠ 0)
    (hm : pool.availableLiquidity * lpAmount ≤ u64Max) :
    (withdrawPayout pool lpSupply lpAmount = 0 →
      withdrawLiquidity cfg pool lpSupply lpAmount
        = .error (.bridge .zeroStablecoinAmount)) ∧
    (pool.availableLiquidity < withdrawPayout pool lpSupply lpAmount →
      withdrawLiquidity cfg pool lpSupply lpAmount
        = .error (.bridge .insufficientLiquidity)) ∧
    (∀ p' out, withdrawLiquidity cfg pool lpSupply lpAmount = .ok (p', out) →
      out = withdrawPayout pool lpSupply lpAmount ∧
      p'.totalLiquidity = pool.totalLiquidity - out ∧
      p'.availableLiquidity = pool.availableLiquidity - out) := by
  refine ⟨?_, ?_, ?_⟩
  · intro hz
    simp [withdrawLiquidity, hpp, hcp, hl, hs, Nat.not_lt.mpr hm, hz]
  · intro hi
    have hnz : ¬ withdrawPayout pool lpSupply lpAmount = 0 := by omega
    simp [withdrawLiquidity, hpp, hcp, hl, hs, Nat.not_lt.mpr hm, hnz, hi]
  · intro p' out h
    have hc := withdrawLiquidity_ok h
    refine ⟨hc.2.2.2.2.1, ?_, ?_⟩
    · rw [hc.2.2.2.2.2.2.2.2]
    · rw [hc.2.2.2.2.2.2.2.2]

/-- Counterexample to C4 as stated: on a pool with 2 ^ 32 available and
external supply 1, withdrawing 2 ^ 32 shares (both pause flags false,
nonzero share amount and supply) has floor payout 2 ^ 64 above the
available liquidity, so the claim requires InsufficientLiquidity, but
the checked multiply available_liquidity * lp_amount overflows u64 and
the call fails with MathOverflow instead. -/
theorem withdraw_payout_formula_cex :
    poolB.paused = false ∧ cfg0.paused = false ∧ (2 ^ 32 : Nat) ≠ 0 ∧ (1 : Nat) ≠ 0 ∧
    poolB.availableLiquidity < withdrawPayout poolB 1 (2 ^ 32) ∧
    withdrawLiquidity cfg0 poolB 1 (2 ^ 32) = .error (.bridge .mathOverflow) ∧
    withdrawLiquidity cfg0 poolB 1 (2 ^ 32)
      ≠ .error (.bridge .insufficientLiquidity) := by
  decide

/-- Witness for C4 on the worked example of the spec: available 1500,
supply 1500, burning 300 shares pays out exactly 300. -/
theorem withdraw_payout_formula_witness :
    ((withdrawPayout { poolB with totalLiquidity := 1500
                                  availableLiquidity := 1500 } 1500 300 = 0 →
      withdrawLiquidity cfg0 { poolB with totalLiquidity := 1500
                                          availableLiquidity := 1500 } 1500 300
        = .error (.bridge .zeroStablecoinAmount)) ∧
    (({ poolB with totalLiquidity := 1500
                   availableLiquidity := 1500 } : PoolState).availableLiquidity
        < withdrawPayout { poolB with totalLiquidity := 1500
                                      availableLiquidity := 1500 } 1500 300 →
      withdrawLiquidity cfg0 { poolB with totalLiquidity := 1500
                                          availableLiquidity := 1500 } 1500 300
        = .error (.bridge .insufficientLiquidity)) ∧
    (∀ p' out, withdrawLiquidity cfg0 { poolB with totalLiquidity := 1500
                                                   availableLiquidity := 1500 } 1500 300
        = .ok (p', out) →
      out = withdrawPayout { poolB with totalLiquidity := 1500
                                        availableLiquidity := 1500 } 1500 300 ∧
      p'.totalLiquidity
        = ({ poolB with totalLiquidity := 1500
                        availableLiquidity := 1500 } : PoolState).totalLiquidity - out ∧
      p'.availableLiquidity
        = ({ poolB with totalLiquidity := 1500
                        availableLiquidity := 1500 } : PoolState).availableLiquidity - out)) ∧
    withdrawLiquidity cfg0 { poolB with totalLiquidity := 1500
                                        availableLiquidity := 1500 } 1500 300
      = .ok ({ poolB with totalLiquidity := 1200
                          availableLiquidity := 1200 }, 300) :=
  ⟨withdraw_payout_formula cfg0 _ 1500 300 rfl rfl (by norm_num) (by norm_num)
     (by decide), by decide⟩

end StablecoinBridge

namespace StablecoinBridge

/-! ### C5: overflow behaviour of the arithmetic -/

/-- C5 (amended): in every mutating operation, overflow or underflow of
any of the CHECKED u64 additions, subtractions, multiplications and
divisions makes the call fail with MathOverflow (conjuncts one to ten
cover every checked site reachable in its handler, under the checks
that precede it); but two arithmetic steps are not checked: the nonce
increment of lock_for_bridge is a saturating addition that silently
clamps at u64Max on a successful call (conjunct eleven), and the deposit
fee product of lib.rs line 87 is an unchecked multiplication whose
overflow aborts the call without MathOverflow (see the counterexample). -/
theorem checked_arithmetic_overflow :
    (∀ (cfg : Config) (pool : PoolState) (lpSupply amount : Nat),
      pool.paused = false → cfg.paused = false → amount ≠ 0 →
      pool.feeRateBps ≤ 10000 → amount * pool.feeRateBps ≤ u64Max →
      pool.availableLiquidity ≠ 0 →
      u64Max < lpSupply * (amount - amount * pool.feeRateBps / 10000) →
      depositLiquidity cfg pool lpSupply amount = .error (.bridge .mathOverflow)) ∧
    (∀ (cfg : Config) (pool : PoolState) (lpSupply amount : Nat),
      pool.paused = false → cfg.paused = false → amount ≠ 0 →
      pool.feeRateBps ≤ 10000 → amount * pool.feeRateBps ≤ u64Max →
      (pool.availableLiquidity = 0 ∨
        lpSupply * (amount - amount * pool.feeRateBps / 10000) ≤ u64Max) →
      depositLpTokens pool lpSupply amount ≠ 0 →
      u64Max < pool.totalLiquidity + amount →
      depositLiquidity cfg pool lpSupply amount = .error (.bridge .mathOverflow)) ∧
    (∀ (cfg : Config) (pool : PoolState) (lpSupply amount : Nat),
      pool.paused = false → cfg.paused = false → amount ≠ 0 →
      pool.feeRateBps ≤ 10000 → amount * pool.feeRateBps ≤ u64Max →
      (pool.availableLiquidity = 0 ∨
        lpSupply * (amount - amount * pool.feeRateBps / 10000) ≤ u64Max) →
      depositLpTokens pool lpSupply amount ≠ 0 →
      pool.totalLiquidity + amount ≤ u64Max →
      u64Max < pool.availableLiquidity + amount →
      depositLiquidity cfg pool lpSupply amount = .error (.bridge .mathOverflow)) ∧
    (∀ (cfg : Config) (pool : PoolState) (lpAmount : Nat),
      pool.paused = false → cfg.paused = false → lpAmount ≠ 0 →
      withdrawLiquidity cfg pool 0 lpAmount = .error (.bridge .mathOverflow)) ∧
    (∀ (cfg : Config) (pool : PoolState) (lpSupply lpAmount : Nat),
      pool.paused = false → cfg.paused = false → lpAmount ≠ 0 → lpSupply ≠ 0 →
      u64Max < pool.availableLiquidity * lpAmount →
      withdrawLiquidity cfg pool lpSupply lpAmount = .error (.bridge .mathOverflow)) ∧
    (∀ (cfg : Config) (pool : PoolState) (lpSupply lpAmount : Nat),
      pool.paused = false → cfg.paused = false → lpAmount ≠ 0 → lpSupply ≠ 0 →
      pool.availableLiquidity * lpAmount ≤ u64Max →
      withdrawPayout pool lpSupply lpAmount ≠ 0 →
      withdrawPayout pool lpSupply lpAmount ≤ pool.availableLiquidity →
      pool.totalLiquidity < withdrawPayout pool lpSupply lpAmount →
      withdrawLiquidity cfg pool lpSupply lpAmount = .error (.bridge .mathOverflow)) ∧
    (∀ (cfg : Config) (pid : Nat) (pool : PoolState) (locks : List BridgeLock)
      (sender amount dId rAddr : Nat) (now : Int),
      pool.paused = false → cfg.paused = false →
      (∀ l ∈ locks, ¬ (l.poolId = pid ∧ l.nonce = pool.nextLockNonce)) →
      amount ≠ 0 → amount ≤ pool.maxLockPerTx →
      u64Max < pool.totalLiquidity + amount →
      lockForBridge cfg pid pool locks sender amount dId rAddr now
        = .error (.bridge .mathOverflow)) ∧
    (∀ (cfg : Config) (pid : Nat) (pool : PoolState) (locks : List BridgeLock)
      (sender amount dId rAddr : Nat) (now : Int),
      pool.paused = false → cfg.paused = false →
      (∀ l ∈ locks, ¬ (l.poolId = pid ∧ l.nonce = pool.nextLockNonce)) →
      amount ≠ 0 → amount ≤ pool.maxLockPerTx →
      pool.totalLiquidity + amount ≤ u64Max →
      u64Max < pool.lockedLiquidity + amount →
      lockForBridge cfg pid pool locks sender amount dId rAddr now
        = .error (.bridge .mathOverflow)) ∧
    (∀ (cfg : Config) (pid : Nat) (pool : PoolState) (lk : BridgeLock) (caller : Nat),
      caller = cfg.relayer → lk.poolId = pid → lk.released = false →
      pool.lockedLiquidity < lk.amount →
      releaseLockedLiquidity cfg pid pool lk caller = .error (.bridge .mathOverflow)) ∧
    (∀ (cfg : Config) (pid : Nat) (pool : PoolState) (lk : BridgeLock) (caller : Nat),
      caller = cfg.relayer → lk.poolId = pid → lk.released = false →
      lk.amount ≤ pool.lockedLiquidity →
      u64Max < pool.availableLiquidity + lk.amount →
      releaseLockedLiquidity cfg pid pool lk caller = .error (.bridge .mathOverflow)) ∧
    (∀ (cfg : Config) (pid : Nat) (pool : PoolState) (locks : List BridgeLock)
      (sender amount dId rAddr : Nat) (now : Int) (p' : PoolState) (lk : BridgeLock),
      lockForBridge cfg pid pool locks sender amount dId rAddr now = .ok (p', lk) →
      p'.nextLockNonce = u64.saturatingAdd pool.nextLockNonce 1) := by
  have hfee : ∀ (pool : PoolState) (amount : Nat), pool.feeRateBps ≤ 10000 →
      ¬ (amount < amount * pool.feeRateBps / 10000) := by
    intro pool amount hbps
    have h1 : amount * pool.feeRateBps / 10000 ≤ amount * 10000 / 10000 :=
      Nat.div_le_div_right (Nat.mul_le_mul_left _ hbps)
    have h2 : amount * 10000 / 10000 = amount := by
      rw [Nat.mul_comm]
      exact Nat.mul_div_cancel_left _ (by norm_num)
    omega
  refine ⟨?_, ?_, ?_, ?_, ?_, ?_, ?_, ?_, ?_, ?_, ?_⟩
  · intro cfg pool lpSupply amount hpp hcp ha hbps hm hne hgt
    simp [depositLiquidity, hpp, hcp, ha, Nat.not_lt.mpr hm, hfee pool amount hbps,
      hne, hgt]
  · intro cfg pool lpSupply amount hpp hcp ha hbps hm hdisj hnz hov
    have hnoov : ¬ (¬ pool.availableLiquidity = 0 ∧
        u64Max < lpSupply * (amount - amount * pool.feeRateBps / 10000)) := by
      rintro ⟨hne, hgt⟩
      rcases hdisj with h0 | hle
      · exact hne h0
      · omega
    simp [depositLiquidity, hpp, hcp, ha, Nat.not_lt.mpr hm, hfee pool amount hbps,
      hnoov, hnz, hov]
  · intro cfg pool lpSupply amount hpp hcp ha hbps hm hdisj hnz hto hov
    have hnoov : ¬ (¬ pool.availableLiquidity = 0 ∧
        u64Max < lpSupply * (amount - amount * pool.feeRateBps / 10000)) := by
      rintro ⟨hne, hgt⟩
      rcases hdisj with h0 | hle
      · exact hne h0
      · omega
    simp [depositLiquidity, hpp, hcp, ha, Nat.not_lt.mpr hm, hfee pool amount hbps,
      hnoov, hnz, Nat.not_lt.mpr hto, hov]
  · intro cfg pool lpAmount hpp hcp hl
    simp [withdrawLiquidity, hpp, hcp, hl]
  · intro cfg pool lpSupply lpAmount hpp hcp hl hs hov
    simp [withdrawLiquidity, hpp, hcp, hl, hs, hov]
  · intro cfg pool lpSupply lpAmount hpp hcp hl hs hm hnz hle hlt
    simp [withdrawLiquidity, hpp, hcp, hl, hs, Nat.not_lt.mpr hm, hnz,
      Nat.not_lt.mpr hle, hlt]
  · intro cfg pid pool locks sender amount dId rAddr now hpp hcp hfresh ha hle hov
    have hany := locks_fresh_any_false hfresh
    unfold lockForBridge
    rw [hany]
    simp [hpp, hcp, ha, Nat.not_lt.mpr hle, hov]
  · intro cfg pid pool locks sender amount dId rAddr now hpp hcp hfresh ha hle hto hov
    have hany := locks_fresh_any_false hfresh
    unfold lockForBridge
    rw [hany]
    simp [hpp, hcp, ha, Nat.not_lt.mpr hle, Nat.not_lt.mpr hto, hov]
  · intro cfg pid pool lk caller h1 h2 h3 h4
    simp [releaseLockedLiquidity, h1, h2, h3, h4]
  · intro cfg pid pool lk caller h1 h2 h3 h4 h5
    simp [releaseLockedLiquidity, h1, h2, h3, Nat.not_lt.mpr h4, h5]
  · intro cfg pid pool locks sender amount dId rAddr now p' lk h
    have hc := lockForBridge_ok h
    rw [hc.2.2.2.2.2.2.2.1]

/-- Counterexample to C5 as stated: first, a lock_for_bridge on a pool
whose nonce counter stands at u64Max succeeds even though the counter
addition overflows u64; the counter silently saturates at u64Max instead
of the call failing with MathOverflow.  Second, a deposit whose fee
product overflows u64 fails, but with the abort of the unchecked
multiply of lib.rs line 87 rather than with MathOverflow. -/
theorem checked_arithmetic_overflow_cex :
    u64Max < poolC.nextLockNonce + 1 ∧
    lockForBridge cfg0 7 poolC [] 9 1 5 11 0
      = .ok ({ poolC with totalLiquidity := 6
                          lockedLiquidity := 3
                          nextLockNonce := u64Max },
             { poolId := 7, amount := 1, nonce := u64Max, destinationChainId := 5,
               recipientAddress := 11, sender := 9, released := false, lockedAt := 0 }) ∧
    u64Max < 2 ^ 63 * poolA.feeRateBps ∧
    depositLiquidity cfg0 poolA 0 (2 ^ 63) = .error .arithmeticPanic ∧
    depositLiquidity cfg0 poolA 0 (2 ^ 63) ≠ .error (.bridge .mathOverflow) := by
  decide

/-- Witness for C5: a concrete overflowing checked multiply in withdraw
fails with MathOverflow, and a concrete checked subtraction underflow in
release fails with MathOverflow. -/
theorem checked_arithmetic_overflow_witness :
    withdrawLiquidity cfg0 poolB 1 (2 ^ 32) = .error (.bridge .mathOverflow) ∧
    releaseLockedLiquidity cfg0 7 { poolB with lockedLiquidity := 0 } lkC 1
      = .error (.bridge .mathOverflow) :=
  ⟨checked_arithmetic_overflow.2.2.2.2.1 cfg0 poolB 1 (2 ^ 32) rfl rfl
     (by norm_num) (by norm_num) (by decide),
   checked_arithmetic_overflow.2.2.2.2.2.2.2.2.1 cfg0 7 _ lkC 1 rfl rfl rfl
     (by decide)⟩

end StablecoinBridge

namespace StablecoinBridge

/-! ### C2: the released flag is one way -/

/-- Setting an index of a list to the value it already holds is the
identity. -/
theorem set_get?_self {α : Type} (l : List α) (i : Nat) (a : α)
    (h : l.get? i = some a) : l.set i a = l := by
  induction l generalizing i with
  | nil => cases h
  | cons x t ih =>
    cases i with
    | zero =>
      simp only [List.get?] at h
      cases h
      rfl
    | succ n =>
      simp only [List.get?] at h
      simp only [List.set]
      rw [ih n h]

/-- One transaction never clears a released flag: a released record is
still released (at the same index) afterwards. -/
theorem applyOp_released_mono (W : World) (o : Op) (i : Nat) (lk : BridgeLock)
    (h : W.locks.get? i = some lk) (hr : lk.released = true) :
    ∃ lk', (applyOp W o).locks.get? i = some lk' ∧ lk'.released = true := by
  unfold applyOp
  cases hS : step W o with
  | error e => exact ⟨lk, h, hr⟩
  | ok W2 =>
    cases o with
    | deposit d s a =>
      obtain ⟨m, -, hlocks, -, -, -⟩ := step_deposit_ok hS
      exact ⟨lk, by rw [hlocks]; exact h, hr⟩
    | withdraw d s a =>
      obtain ⟨out, -, hlocks, -, -, -⟩ := step_withdraw_ok hS
      exact ⟨lk, by rw [hlocks]; exact h, hr⟩
    | lock sender a dId rAddr now =>
      obtain ⟨lk2, -, hlocks, -, -, -⟩ := step_lock_ok hS
      have hi : i < W.locks.length := by
        rw [List.get?_eq_some] at h
        exact h.1
      refine ⟨lk, ?_, hr⟩
      rw [hlocks, List.get?_append hi]
      exact h
    | release caller j =>
      obtain ⟨lkj, lkj', hL, hR, hlocks, -, -, -⟩ := step_release_ok hS
      by_cases hij : j = i
      · subst hij
        rw [hL] at h
        cases h
        have := (releaseLockedLiquidity_ok hR).2.2.1
        rw [this] at hr
        cases hr
      · refine ⟨lk, ?_, hr⟩
        rw [hlocks, List.get?_set_ne _ _ hij]
        exact h
    | updateFee c f =>
      have hc := step_admin_ok (Or.inl ⟨c, f, rfl⟩) hS
      exact ⟨lk, by rw [hc.1]; exact h, hr⟩
    | pause c =>
      have hc := step_admin_ok (Or.inr (Or.inl ⟨c, rfl⟩)) hS
      exact ⟨lk, by rw [hc.1]; exact h, hr⟩
    | resume c =>
      have hc := step_admin_ok (Or.inr (Or.inr ⟨c, rfl⟩)) hS
      exact ⟨lk, by rw [hc.1]; exact h, hr⟩

/-- A released flag stays released along any run. -/
theorem run_released_mono (W : World) (ops : List Op) (i : Nat) (lk : BridgeLock)
    (h : W.locks.get? i = some lk) (hr : lk.released = true) :
    ∃ lk', (run W ops).locks.get? i = some lk' ∧ lk'.released = true := by
  induction ops generalizing W lk with
  | nil => exact ⟨lk, h, hr⟩
  | cons o t ih =>
    obtain ⟨lk1, h1, hr1⟩ := applyOp_released_mono W o i lk h hr
    exact ih (applyOp W o) lk1 h1 hr1

/-- Only a release transaction on the same record can flip its released
flag from false to true. -/
theorem step_released_flip (W : World) (o : Op) (W2 : World) (i : Nat)
    (lk lk' : BridgeLock) (hS : step W o = .ok W2)
    (h : W.locks.get? i = some lk) (h' : W2.locks.get? i = some lk')
    (hf : lk.released = false) (ht : lk'.released = true) :
    ∃ caller, o = .release caller i := by
  cases o with
  | deposit d s a =>
    obtain ⟨m, -, hlocks, -, -, -⟩ := step_deposit_ok hS
    rw [hlocks, h] at h'
    cases h'
    rw [hf] at ht
    cases ht
  | withdraw d s a =>
    obtain ⟨out, -, hlocks, -, -, -⟩ := step_withdraw_ok hS
    rw [hlocks, h] at h'
    cases h'
    rw [hf] at ht
    cases ht
  | lock sender a dId rAddr now =>
    obtain ⟨lk2, -, hlocks, -, -, -⟩ := step_lock_ok hS
    have hi : i < W.locks.length := by
      rw [List.get?_eq_some] at h
      exact h.1
    rw [hlocks, List.get?_append hi, h] at h'
    cases h'
    rw [hf] at ht
    cases ht
  | release caller j =>
    by_cases hij : j = i
    · exact ⟨caller, by rw [hij]⟩
    · obtain ⟨lkj, lkj', -, -, hlocks, -, -, -⟩ := step_release_ok hS
      rw [hlocks, List.get?_set_ne _ _ hij, h] at h'
      cases h'
      rw [hf] at ht
      cases ht
  | updateFee c f =>
    have hc := step_admin_ok (Or.inl ⟨c, f, rfl⟩) hS
    rw [hc.1, h] at h'
    cases h'
    rw [hf] at ht
    cases ht
  | pause c =>
    have hc := step_admin_ok (Or.inr (Or.inl ⟨c, rfl⟩)) hS
    rw [hc.1, h] at h'
    cases h'
    rw [hf] at ht
    cases ht
  | resume c =>
    have hc := step_admin_ok (Or.inr (Or.inr ⟨c, rfl⟩)) hS
    rw [hc.1, h] at h'
    cases h'
    rw [hf] at ht
    cases ht

/-- C2: a BridgeLock record is created with released = false; once true
it stays true along any continuation; the only transaction that turns it
from false to true is a release of that very record; and a second
release of an already released record by the relayer always fails with
AlreadyReleased, the transaction leaving the world unchanged (a failing
call with a different signer or pool still changes nothing, it merely
fails earlier with UnauthorizedRelayer or InvalidBridgeLock, see the C6
theorem). -/
theorem released_flag_one_way :
    (∀ (cfg : Config) (pid : Nat) (pool : PoolState) (locks : List BridgeLock)
      (sender amount dId rAddr : Nat) (now : Int) (p' : PoolState) (lk : BridgeLock),
      lockForBridge cfg pid pool locks sender amount dId rAddr now = .ok (p', lk) →
      lk.released = false) ∧
    (∀ (W : World) (ops : List Op) (i : Nat) (lk : BridgeLock),
      W.locks.get? i = some lk → lk.released = true →
      ∃ lk', (run W ops).locks.get? i = some lk' ∧ lk'.released = true) ∧
    (∀ (W : World) (o : Op) (W2 : World) (i : Nat) (lk lk' : BridgeLock),
      step W o = .ok W2 → W.locks.get? i = some lk → W2.locks.get? i = some lk' →
      lk.released = false → lk'.released = true →
      ∃ caller, o = .release caller i) ∧
    (∀ (W : World) (caller i : Nat) (lk : BridgeLock),
      W.locks.get? i = some lk → lk.released = true →
      caller = W.config.relayer → lk.poolId = W.poolId →
      step W (.release caller i) = .error (.bridge .alreadyReleased) ∧
      applyOp W (.release caller i) = W) := by
  refine ⟨?_, ?_, ?_, ?_⟩
  · intro cfg pid pool locks sender amount dId rAddr now p' lk h
    rw [(lockForBridge_ok h).2.2.2.2.2.2.2.2]
  · exact run_released_mono
  · exact step_released_flip
  · intro W caller i lk hget hr hcaller hmatch
    have hrel : releaseLockedLiquidity W.config W.poolId W.pool lk caller
        = .error (.bridge .alreadyReleased) := by
      simp [releaseLockedLiquidity, hcaller, hmatch, hr]
    have hstep : step W (.release caller i) = .error (.bridge .alreadyReleased) := by
      simp only [step]
      rw [hget]
      simp only [Option.elim]
      rw [hrel]
      rfl
    refine ⟨hstep, ?_⟩
    unfold applyOp
    rw [hstep]

/-- Witness for C2: on a world holding one already released record, a
relayer retry fails with AlreadyReleased and changes nothing. -/
theorem released_flag_one_way_witness :
    step { config := cfg0, poolId := 7, pool := poolC,
           locks := [{ lkC with released := true }], vaultBalance := 3 }
        (.release 1 0) = .error (.bridge .alreadyReleased) ∧
    applyOp { config := cfg0, poolId := 7, pool := poolC,
              locks := [{ lkC with released := true }], vaultBalance := 3 }
        (.release 1 0)
      = { config := cfg0, poolId := 7, pool := poolC,
          locks := [{ lkC with released := true }], vaultBalance := 3 } :=
  released_flag_one_way.2.2.2 _ 1 0 _ rfl rfl rfl rfl

end StablecoinBridge

namespace StablecoinBridge

/-! ### C8: nonce sequence -/

/-- Each transaction preserves the nonce bookkeeping invariant. -/
theorem applyOp_preserves_NonceInv (W : World) (o : Op) (h : NonceInv W) :
    NonceInv (applyOp W o) := by
  obtain ⟨hmap, hnext, hpid⟩ := h
  unfold applyOp
  cases hS : step W o with
  | error e => exact ⟨hmap, hnext, hpid⟩
  | ok W2 =>
    cases o with
    | deposit d s a =>
      obtain ⟨m, hD, hlocks, -, hpid2, -⟩ := step_deposit_ok hS
      have hp := (depositLiquidity_ok hD).2.2.2.2.2.2.2
      refine ⟨?_, ?_, ?_⟩
      · rw [hlocks, hmap]
      · rw [hlocks, hp]
        dsimp only
        exact hnext
      · intro l hl
        rw [hlocks] at hl
        rw [hpid2]
        exact hpid l hl
    | withdraw d s a =>
      obtain ⟨out, hD, hlocks, -, hpid2, -⟩ := step_withdraw_ok hS
      have hp := (withdrawLiquidity_ok hD).2.2.2.2.2.2.2.2
      refine ⟨?_, ?_, ?_⟩
      · rw [hlocks, hmap]
      · rw [hlocks, hp]
        dsimp only
        exact hnext
      · intro l hl
        rw [hlocks] at hl
        rw [hpid2]
        exact hpid l hl
    | lock sender a dId rAddr now =>
      obtain ⟨lk2, hD, hlocks, -, hpid2, -⟩ := step_lock_ok hS
      have hc := lockForBridge_ok hD
      have hfresh := hc.2.2.2.2.1
      have hlen : W.locks.length ≤ u64Max := by
        by_contra hgt
        push_neg at hgt
        have hnext' : W.pool.nextLockNonce = u64Max := by
          rw [hnext, Nat.min_eq_right (Nat.le_of_lt hgt)]
        have hmem : u64Max ∈ W.locks.map (fun lk => lk.nonce) := by
          rw [hmap]
          exact List.mem_range.mpr hgt
        obtain ⟨l, hl, hln⟩ := List.mem_map.mp hmem
        exact hfresh l hl ⟨hpid l hl, by rw [hln, hnext']⟩
      have hnexteq : W.pool.nextLockNonce = W.locks.length := by
        rw [hnext, Nat.min_eq_left hlen]
      refine ⟨?_, ?_, ?_⟩
      · rw [hlocks, hc.2.2.2.2.2.2.2.2, List.map_append, hmap]
        dsimp only [List.map]
        rw [List.length_append, hnexteq]
        simp [List.range_succ]
      · rw [hlocks, hc.2.2.2.2.2.2.2.1]
        dsimp only
        rw [u64.saturatingAdd, hnexteq, List.length_append]
        simp
      · intro l hl
        rw [hlocks] at hl
        rcases List.mem_append.mp hl with h1 | h2
        · rw [hpid2]
          exact hpid l h1
        · simp only [List.mem_singleton] at h2
          rw [h2, hc.2.2.2.2.2.2.2.2, hpid2]
    | release caller j =>
      obtain ⟨lkj, lkj', hL, hR, hlocks, -, hpid2, -⟩ := step_release_ok hS
      have hc := releaseLockedLiquidity_ok hR
      have hmapset : W2.locks.map (fun lk => lk.nonce)
          = W.locks.map (fun lk => lk.nonce) := by
        rw [hlocks, List.map_set, hc.2.2.2.2.2.2]
        dsimp only
        apply set_get?_self
        rw [List.get?_map, hL]
        rfl
      refine ⟨?_, ?_, ?_⟩
      · rw [hmapset, hmap, hlocks, List.length_set]
      · rw [hlocks, List.length_set, hc.2.2.2.2.2.1]
        dsimp only
        exact hnext
      · intro l hl
        rw [hlocks] at hl
        rcases List.mem_or_eq_of_mem_set hl with h1 | h2
        · rw [hpid2]
          exact hpid l h1
        · rw [h2, hc.2.2.2.2.2.2]
          dsimp only
          rw [hpid2]
          exact hpid lkj (List.get?_mem hL)
    | updateFee c f =>
      have hc := step_admin_ok (Or.inl ⟨c, f, rfl⟩) hS
      exact ⟨by rw [hc.1, hmap], by rw [hc.1, hc.2.2.2.2.2.2.2]; exact hnext, by
        intro l hl
        rw [hc.1] at hl
        rw [hc.2.2.1]
        exact hpid l hl⟩
    | pause c =>
      have hc := step_admin_ok (Or.inr (Or.inl ⟨c, rfl⟩)) hS
      exact ⟨by rw [hc.1, hmap], by rw [hc.1, hc.2.2.2.2.2.2.2]; exact hnext, by
        intro l hl
        rw [hc.1] at hl
        rw [hc.2.2.1]
        exact hpid l hl⟩
    | resume c =>
      have hc := step_admin_ok (Or.inr (Or.inr ⟨c, rfl⟩)) hS
      exact ⟨by rw [hc.1, hmap], by rw [hc.1, hc.2.2.2.2.2.2.2]; exact hnext, by
        intro l hl
        rw [hc.1] at hl
        rw [hc.2.2.1]
        exact hpid l hl⟩

/-- The nonce bookkeeping invariant holds along any run. -/
theorem run_preserves_NonceInv (W : World) (ops : List Op) (h : NonceInv W) :
    NonceInv (run W ops) := by
  induction ops generalizing W with
  | nil => exact h
  | cons o t ih => exact ih _ (applyOp_preserves_NonceInv W o h)

/-- C8: starting from pool initialization, after any sequence of
transactions the recorded nonces of the N successful lock_for_bridge
calls are exactly 0, 1, ..., N-1 in creation order (so no gaps and no
repeats); and each successful lock assigns nonce = next_lock_nonce and
then advances the counter with a saturating add. -/
theorem lock_nonce_sequence :
    (∀ admin relayer pid feeRateBps maxLockPerTx lockCooldownSeconds vault0 ops,
      ((run (initWorld admin relayer pid feeRateBps maxLockPerTx
          lockCooldownSeconds vault0) ops).locks.map fun lk => lk.nonce)
        = List.range (run (initWorld admin relayer pid feeRateBps maxLockPerTx
            lockCooldownSeconds vault0) ops).locks.length) ∧
    (∀ (cfg : Config) (pid : Nat) (pool : PoolState) (locks : List BridgeLock)
      (sender amount dId rAddr : Nat) (now : Int) (p' : PoolState) (lk : BridgeLock),
      lockForBridge cfg pid pool locks sender amount dId rAddr now = .ok (p', lk) →
      lk.nonce = pool.nextLockNonce ∧
      p'.nextLockNonce = u64.saturatingAdd pool.nextLockNonce 1) := by
  constructor
  · intro admin relayer pid feeRateBps maxLockPerTx lockCooldownSeconds vault0 ops
    have h0 : NonceInv (initWorld admin relayer pid feeRateBps maxLockPerTx
        lockCooldownSeconds vault0) := by
      refine ⟨rfl, ?_, ?_⟩
      · simp [initWorld, u64Max]
      · intro l hl
        cases hl
    exact (run_preserves_NonceInv _ ops h0).1
  · intro cfg pid pool locks sender amount dId rAddr now p' lk h
    have hc := lockForBridge_ok h
    constructor
    · rw [hc.2.2.2.2.2.2.2.2]
    · rw [hc.2.2.2.2.2.2.2.1]

/-- Witness for C8: the concrete successful lock on the saturated pool
assigns the current counter value as nonce and saturates the counter. -/
theorem lock_nonce_sequence_witness :
    ({ poolId := 7, amount := 1, nonce := u64Max, destinationChainId := 5,
       recipientAddress := 11, sender := 9, released := false,
       lockedAt := 0 } : BridgeLock).nonce = poolC.nextLockNonce ∧
    ({ poolC with totalLiquidity := 6
                  lockedLiquidity := 3
                  nextLockNonce := u64Max } : PoolState).nextLockNonce
      = u64.saturatingAdd poolC.nextLockNonce 1 :=
  lock_nonce_sequence.2 cfg0 7 poolC [] 9 1 5 11 0 _ _ (by decide)

end StablecoinBridge

namespace StablecoinBridge

/-! ### C6: release semantics and authorization -/

/-- Unfolding of sumUnreleased on a cons cell. -/
theorem sumUnreleased_cons (x : BridgeLock) (t : List BridgeLock) :
    sumUnreleased (x :: t) = (if x.released then 0 else x.amount) + sumUnreleased t := by
  simp [sumUnreleased]

/-- Unfolding of sumUnreleased on an appended singleton. -/
theorem sumUnreleased_append (l : List BridgeLock) (lk : BridgeLock) :
    sumUnreleased (l ++ [lk])
      = sumUnreleased l + (if lk.released then 0 else lk.amount) := by
  simp [sumUnreleased]

/-- An unreleased record contributes its amount to the outstanding
liability. -/
theorem amount_le_sumUnreleased (l : List BridgeLock) (i : Nat) (lk : BridgeLock)
    (h : l.get? i = some lk) (hr : lk.released = false) :
    lk.amount ≤ sumUnreleased l := by
  induction l generalizing i with
  | nil => cases h
  | cons x t ih =>
    cases i with
    | zero =>
      simp only [List.get?] at h
      cases h
      simp only [sumUnreleased_cons, hr, Bool.false_eq_true, if_false]
      omega
    | succ n =>
      simp only [List.get?] at h
      rw [sumUnreleased_cons]
      have := ih n h
      omega

/-- Marking an unreleased record released removes exactly its amount
from the outstanding liability. -/
theorem sumUnreleased_set_release (l : List BridgeLock) (i : Nat) (lk : BridgeLock)
    (h : l.get? i = some lk) (hr : lk.released = false) :
    sumUnreleased (l.set i { lk with released := true }) + lk.amount
      = sumUnreleased l := by
  induction l generalizing i with
  | nil => cases h
  | cons x t ih =>
    cases i with
    | zero =>
      simp only [List.get?] at h
      cases h
      simp only [List.set, sumUnreleased_cons, hr]
      simp only [Bool.false_eq_true, if_false, if_pos]
      omega
    | succ n =>
      simp only [List.get?] at h
      simp only [List.set, sumUnreleased_cons]
      have := ih n h
      omega

/-- Each transaction preserves structural well-formedness. -/
theorem applyOp_preserves_GoodWorld (W : World) (o : Op) (h : GoodWorld W) :
    GoodWorld (applyOp W o) := by
  obtain ⟨hInv, hTot, hSum, hPid⟩ := h
  unfold applyOp
  cases hS : step W o with
  | error e => exact ⟨hInv, hTot, hSum, hPid⟩
  | ok W2 =>
    cases o with
    | deposit d s a =>
      obtain ⟨m, hD, hlocks, -, hpid2, -⟩ := step_deposit_ok hS
      have hc := depositLiquidity_ok hD
      have hp := hc.2.2.2.2.2.2.2
      refine ⟨?_, ?_, ?_, ?_⟩
      · simp only [Inv1] at hInv ⊢
        rw [hp]
        dsimp only
        omega
      · rw [hp]
        dsimp only
        exact hc.2.2.2.2.2.1
      · rw [hp, hlocks]
        dsimp only
        exact hSum
      · intro l hl
        rw [hlocks] at hl
        rw [hpid2]
        exact hPid l hl
    | withdraw d s a =>
      obtain ⟨out, hD, hlocks, -, hpid2, -⟩ := step_withdraw_ok hS
      have hc := withdrawLiquidity_ok hD
      have hp := hc.2.2.2.2.2.2.2.2
      refine ⟨?_, ?_, ?_, ?_⟩
      · simp only [Inv1] at hInv ⊢
        rw [hp]
        dsimp only
        have h1 := hc.2.2.2.2.2.2.1
        have h2 := hc.2.2.2.2.2.2.2.1
        omega
      · rw [hp]
        dsimp only
        have h2 := hc.2.2.2.2.2.2.2.1
        omega
      · rw [hp, hlocks]
        dsimp only
        exact hSum
      · intro l hl
        rw [hlocks] at hl
        rw [hpid2]
        exact hPid l hl
    | lock sender a dId rAddr now =>
      obtain ⟨lk2, hD, hlocks, -, hpid2, -⟩ := step_lock_ok hS
      have hc := lockForBridge_ok hD
      have hp := hc.2.2.2.2.2.2.2.1
      have hlk := hc.2.2.2.2.2.2.2.2
      refine ⟨?_, ?_, ?_, ?_⟩
      · simp only [Inv1] at hInv ⊢
        rw [hp]
        dsimp only
        omega
      · rw [hp]
        dsimp only
        exact hc.2.2.2.2.2.1
      · rw [hp, hlocks, sumUnreleased_append, hlk]
        dsimp only
        rw [if_neg (by simp)]
        rw [hSum]
      · intro l hl
        rw [hlocks] at hl
        rcases List.mem_append.mp hl with h1 | h2
        · rw [hpid2]
          exact hPid l h1
        · simp only [List.mem_singleton] at h2
          rw [h2, hlk, hpid2]
    | release caller j =>
      obtain ⟨lkj, lkj', hL, hR, hlocks, -, hpid2, -⟩ := step_release_ok hS
      have hc := releaseLockedLiquidity_ok hR
      have hp := hc.2.2.2.2.2.1
      have hlk := hc.2.2.2.2.2.2
      have hMem := amount_le_sumUnreleased W.locks j lkj hL hc.2.2.1
      have hSet := sumUnreleased_set_release W.locks j lkj hL hc.2.2.1
      refine ⟨?_, ?_, ?_, ?_⟩
      · simp only [Inv1] at hInv ⊢
        rw [hp]
        dsimp only
        have := hc.2.2.2.1
        omega
      · rw [hp]
        dsimp only
        exact hTot
      · rw [hp, hlocks, hlk]
        dsimp only
        omega
      · intro l hl
        rw [hlocks] at hl
        rcases List.mem_or_eq_of_mem_set hl with h1 | h2
        · rw [hpid2]
          exact hPid l h1
        · rw [h2, hlk]
          dsimp only
          rw [hpid2]
          exact hPid lkj (List.get?_mem hL)
    | updateFee c f =>
      have hc := step_admin_ok (Or.inl ⟨c, f, rfl⟩) hS
      refine ⟨?_, ?_, ?_, ?_⟩
      · simp only [Inv1] at hInv ⊢
        rw [hc.2.2.2.2.1, hc.2.2.2.2.2.1, hc.2.2.2.2.2.2.1]
        exact hInv
      · rw [hc.2.2.2.2.1]
        exact hTot
      · rw [hc.2.2.2.2.2.2.1, hc.1]
        exact hSum
      · intro l hl
        rw [hc.1] at hl
        rw [hc.2.2.1]
        exact hPid l hl
    | pause c =>
      have hc := step_admin_ok (Or.inr (Or.inl ⟨c, rfl⟩)) hS
      refine ⟨?_, ?_, ?_, ?_⟩
      · simp only [Inv1] at hInv ⊢
        rw [hc.2.2.2.2.1, hc.2.2.2.2.2.1, hc.2.2.2.2.2.2.1]
        exact hInv
      · rw [hc.2.2.2.2.1]
        exact hTot
      · rw [hc.2.2.2.2.2.2.1, hc.1]
        exact hSum
      · intro l hl
        rw [hc.1] at hl
        rw [hc.2.2.1]
        exact hPid l hl
    | resume c =>
      have hc := step_admin_ok (Or.inr (Or.inr ⟨c, rfl⟩)) hS
      refine ⟨?_, ?_, ?_, ?_⟩
      · simp only [Inv1] at hInv ⊢
        rw [hc.2.2.2.2.1, hc.2.2.2.2.2.1, hc.2.2.2.2.2.2.1]
        exact hInv
      · rw [hc.2.2.2.2.1]
        exact hTot
      · rw [hc.2.2.2.2.2.2.1, hc.1]
        exact hSum
      · intro l hl
        rw [hc.1] at hl
        rw [hc.2.2.1]
        exact hPid l hl

/-- Structural well-formedness holds along any run. -/
theorem run_preserves_GoodWorld (W : World) (ops : List Op) (h : GoodWorld W) :
    GoodWorld (run W ops) := by
  induction ops generalizing W with
  | nil => exact h
  | cons o t ih => exact ih _ (applyOp_preserves_GoodWorld W o h)

/-- Every reachable world is structurally well formed. -/
theorem reachable_goodWorld (W : World) (h : Reachable W) : GoodWorld W := by
  obtain ⟨a, r, p, f, m, c, v, ops, rfl⟩ := h
  apply run_preserves_GoodWorld
  refine ⟨?_, ?_, ?_, ?_⟩
  · simp [initWorld, Inv1]
  · simp [initWorld]
  · simp [initWorld, sumUnreleased]
  · intro l hl
    cases hl

/-- C6: for a release transaction on a lock record whose amount is
covered by locked_liquidity and fits the u64 bound on available (true in
every reachable world, second part), the call succeeds exactly when the
caller is config.relayer, the record belongs to the pool, and the record
is not yet released; failing the first check gives UnauthorizedRelayer,
the second InvalidBridgeLock, the third AlreadyReleased; a success sets
released, moves the amount from locked to available liquidity, keeps
total liquidity and the vault balance (no external token transfer), and
any failure leaves the world unchanged. -/
theorem release_auth_semantics :
    (∀ (W : World) (caller i : Nat) (lk : BridgeLock),
      W.locks.get? i = some lk →
      lk.amount ≤ W.pool.lockedLiquidity →
      W.pool.availableLiquidity + lk.amount ≤ u64Max →
      ((∃ W2, step W (.release caller i) = .ok W2) ↔
        (caller = W.config.relayer ∧ lk.poolId = W.poolId ∧ lk.released = false)) ∧
      (caller ≠ W.config.relayer →
        step W (.release caller i) = .error (.bridge .unauthorizedRelayer)) ∧
      (caller = W.config.relayer → lk.poolId ≠ W.poolId →
        step W (.release caller i) = .error (.bridge .invalidBridgeLock)) ∧
      (caller = W.config.relayer → lk.poolId = W.poolId → lk.released = true →
        step W (.release caller i) = .error (.bridge .alreadyReleased)) ∧
      (∀ W2, step W (.release caller i) = .ok W2 →
        W2.pool.lockedLiquidity = W.pool.lockedLiquidity - lk.amount ∧
        W2.pool.availableLiquidity = W.pool.availableLiquidity + lk.amount ∧
        W2.pool.totalLiquidity = W.pool.totalLiquidity ∧
        W2.vaultBalance = W.vaultBalance ∧
        W2.locks = W.locks.set i { lk with released := true } ∧
        W2.config = W.config ∧ W2.poolId = W.poolId) ∧
      (∀ e, step W (.release caller i) = .error e →
        applyOp W (.release caller i) = W)) ∧
    (∀ W : World, Reachable W → ∀ (i : Nat) (lk : BridgeLock),
      W.locks.get? i = some lk → lk.released = false →
      lk.amount ≤ W.pool.lockedLiquidity ∧
      W.pool.availableLiquidity + lk.amount ≤ u64Max) := by
  constructor
  · intro W caller i lk hget hle hbound
    have hstep : step W (.release caller i)
        = (releaseLockedLiquidity W.config W.poolId W.pool lk caller).map
            (fun r => { W with pool := r.1, locks := W.locks.set i r.2 }) := by
      simp only [step]
      rw [hget]
      rfl
    refine ⟨?_, ?_, ?_, ?_, ?_, ?_⟩
    · constructor
      · rintro ⟨W2, h2⟩
        rw [hstep] at h2
        cases hrel : releaseLockedLiquidity W.config W.poolId W.pool lk caller with
        | error e =>
          rw [hrel] at h2
          cases h2
        | ok r =>
          have hc := releaseLockedLiquidity_ok hrel
          exact ⟨hc.1, hc.2.1, hc.2.2.1⟩
      · rintro ⟨h1, h2, h3⟩
        have hrel : releaseLockedLiquidity W.config W.poolId W.pool lk caller
            = .ok ({ W.pool with
                       lockedLiquidity := W.pool.lockedLiquidity - lk.amount
                       availableLiquidity := W.pool.availableLiquidity + lk.amount },
                   { lk with released := true }) := by
          simp [releaseLockedLiquidity, h1, h2, h3, Nat.not_lt.mpr hle,
            Nat.not_lt.mpr hbound]
        exact ⟨_, by rw [hstep, hrel]; rfl⟩
    · intro h1
      have hrel : releaseLockedLiquidity W.config W.poolId W.pool lk caller
          = .error (.bridge .unauthorizedRelayer) := by
        simp [releaseLockedLiquidity, h1]
      rw [hstep, hrel]
      rfl
    · intro h1 h2
      have hrel : releaseLockedLiquidity W.config W.poolId W.pool lk caller
          = .error (.bridge .invalidBridgeLock) := by
        simp [releaseLockedLiquidity, h1, h2]
      rw [hstep, hrel]
      rfl
    · intro h1 h2 h3
      have hrel : releaseLockedLiquidity W.config W.poolId W.pool lk caller
          = .error (.bridge .alreadyReleased) := by
        simp [releaseLockedLiquidity, h1, h2, h3]
      rw [hstep, hrel]
      rfl
    · intro W2 h2
      rw [hstep] at h2
      cases hrel : releaseLockedLiquidity W.config W.poolId W.pool lk caller with
      | error e =>
        rw [hrel] at h2
        cases h2
      | ok r =>
        rw [hrel] at h2
        simp only [Except.map] at h2
        cases h2
        have hc := releaseLockedLiquidity_ok hrel
        have hp := hc.2.2.2.2.2.1
        have hlk := hc.2.2.2.2.2.2
        refine ⟨?_, ?_, ?_, rfl, ?_, rfl, rfl⟩
        · dsimp only
          rw [hp]
        · dsimp only
          rw [hp]
        · dsimp only
          rw [hp]
        · dsimp only
          rw [hlk]
    · intro e he
      unfold applyOp
      rw [he]
  · intro W hReach i lk hget hrel
    obtain ⟨hInv, hTot, hSum, hPid⟩ := reachable_goodWorld W hReach
    have hAmt := amount_le_sumUnreleased W.locks i lk hget hrel
    rw [← hSum] at hAmt
    simp only [Inv1] at hInv
    exact ⟨hAmt, by omega⟩

/-- Witness for C6: the relayer releases the single unreleased lock of
the concrete world worldC; the lock amount moves from locked to
available, total liquidity and the vault are untouched, and the record
is marked released. -/
theorem release_auth_semantics_witness :
    worldC'.pool.lockedLiquidity = worldC.pool.lockedLiquidity - lkC.amount ∧
    worldC'.pool.availableLiquidity = worldC.pool.availableLiquidity + lkC.amount ∧
    worldC'.pool.totalLiquidity = worldC.pool.totalLiquidity ∧
    worldC'.vaultBalance = worldC.vaultBalance ∧
    worldC'.locks = worldC.locks.set 0 { lkC with released := true } ∧
    worldC'.config = worldC.config ∧ worldC'.poolId = worldC.poolId :=
  (release_auth_semantics.1 worldC 1 0 lkC rfl (by decide) (by decide)).2.2.2.2.1
    worldC' (by decide)

end StablecoinBridge
